import Mathlib

/-!
Shallow embedding of the bp-skate availability relay (Go, `api/index.go` and its
revisions).  The pipeline embedded here is the most evolved Go revision
(`package handler`: `Handler`, `querySkateTimesAPI`, `getFormattedTimes`,
`formatSkateTimes`), together with the legacy shared-secret variant of `Handler`.
Go maps are modelled as association lists with Go's assignment semantics
(replace an existing key, otherwise append); Go map reads of missing keys give
the zero value.  The upstream HTTP call is modelled by an explicit
`UpstreamResult` argument; `json.Unmarshal` failure leaves the target map empty,
which is modelled by an `Option` body.
-/

namespace BpSkate

/-- Go `map[string]int` (time-code to spot count), as an association list. -/
abbrev SlotMap := List (String × Int)

/-- Go `map[string]map[string]int` (date to per-time spot counts). -/
abbrev RawSlotMap := List (String × SlotMap)

/-- Go map assignment `m[k] = v`: overwrite the entry for `k` if present,
otherwise add a new entry. -/
def mapAssign (m : SlotMap) (k : String) (v : Int) : SlotMap :=
  if m.any (fun p => p.1 == k) then
    m.map (fun p => if p.1 == k then (k, v) else p)
  else
    m ++ [(k, v)]

/-- Go map read `m[k]`: the stored value, or the zero value `0` if absent. -/
def mapLookup (m : SlotMap) (k : String) : Int :=
  match m.find? (fun p => p.1 == k) with
  | some p => p.2
  | none => 0

/-- Go read `skateTimesMap[date]`: the inner map, or the nil map (which ranges
as empty) if the date is absent. -/
def rawLookup (m : RawSlotMap) (d : String) : SlotMap :=
  match m.find? (fun p => p.1 == d) with
  | some p => p.2
  | none => []

/-- The key rewrite inside the filter loop: `if len(k) == 3 { k = "0" + k }`. -/
def normalizeKey (k : String) : String :=
  if k.length = 3 then "0" ++ k else k

/-- First loop of `getFormattedTimes`: drop pairs with `v <= 0`, left-pad
3-character keys with one `"0"`, and assign into a fresh Go map. -/
def removeZeroValues (entries : SlotMap) : SlotMap :=
  entries.foldl
    (fun acc p => if 0 < p.2 then mapAssign acc (normalizeKey p.1) p.2 else acc)
    []

/-- Lexicographic comparison of character lists by codepoint.  Go's
`sort.Strings` compares strings byte-wise; UTF-8 byte order coincides with
codepoint order, so this is the comparison `sort.Strings` sorts by. -/
def chLe : List Char → List Char → Bool
  | [], _ => true
  | _ :: _, [] => false
  | c :: cs, d :: ds =>
    if c < d then true else if d < c then false else chLe cs ds

/-- Go's string comparison `a <= b`. -/
def strLe (a b : String) : Bool := chLe a.toList b.toList

/-- The (non-strict) sort order of `sort.Strings`, as a proposition. -/
abbrev SLe : String → String → Prop := fun a b => strLe a b = true

/-- Strict lexicographic order on strings. -/
abbrev SLt : String → String → Prop := fun a b => strLe a b = true ∧ a ≠ b

/-- Insertion step of the sort: place `k` before the first element it
compares at-or-below. -/
def orderedInsertStr (k : String) : List String → List String
  | [] => [k]
  | b :: l => if strLe k b then k :: b :: l else b :: orderedInsertStr k l

/-- Go `sort.Strings(keys)`, embedded as insertion sort over `strLe`
(`sort.Strings` sorts ascending in the same order; only the resulting
ordered list matters to the program). -/
def sortStrings : List String → List String
  | [] => []
  | a :: l => orderedInsertStr a (sortStrings l)

/-- Key extraction loop plus `sort.Strings(keys)`: the map's keys in
ascending lexicographic order. -/
def sortedKeys (m : SlotMap) : List String :=
  sortStrings (m.map Prod.fst)

/-- Digit value of an ASCII digit character. -/
def digitVal (c : Char) : Nat := c.toNat - 48

/-- Go zero-padded 2-digit minute rendering (`"04"` format verb). -/
def pad2 (n : Nat) : String :=
  if n < 10 then "0" ++ toString n else toString n

/-- Go 4-digit year rendering (`"2006"` format verb, zero-padded to width 4). -/
def pad4 (n : Nat) : String :=
  if n < 10 then "000" ++ toString n
  else if n < 100 then "00" ++ toString n
  else if n < 1000 then "0" ++ toString n
  else toString n

/-- Go `time.Parse("1504", s)`: a 24-hour `HHMM` string becomes an
(hour, minute) pair; any other input is a parse error, which the source
ignores, leaving the zero `time.Time` (modelled by `Option`, with `none`
standing for the zero time, i.e. hour 0, minute 0). -/
def parse1504 (s : String) : Option (Nat × Nat) :=
  match s.toList with
  | [h1, h2, m1, m2] =>
    if h1.isDigit && h2.isDigit && m1.isDigit && m2.isDigit then
      let hh := digitVal h1 * 10 + digitVal h2
      let mm := digitVal m1 * 10 + digitVal m2
      if hh ≤ 23 && mm ≤ 59 then some (hh, mm) else none
    else none
  | _ => none

/-- Go `timeObj.Format("3:04 PM")`: 12-hour hour without padding, a colon,
zero-padded minutes, a space, then `AM` or `PM`. -/
def format304PM (t : Nat × Nat) : String :=
  let h12 := if t.1 % 12 = 0 then 12 else t.1 % 12
  toString h12 ++ ":" ++ pad2 t.2 ++ (if t.1 < 12 then " AM" else " PM")

/-- Calendar date, as carried by Go's `time.Time` for this program. -/
structure Date where
  year : Nat
  month : Nat
  day : Nat
deriving DecidableEq

/-- Go's zero `time.Time`: January 1, year 1. -/
def zeroDate : Date := ⟨1, 1, 1⟩

/-- Gregorian leap-year rule, as in Go's `time` package. -/
def isLeapYear (y : Nat) : Bool :=
  y % 4 = 0 && (y % 100 ≠ 0 || y % 400 = 0)

/-- Days in a month, as checked by Go's `time.Parse` date validation. -/
def daysInMonth (y m : Nat) : Nat :=
  if m = 2 then (if isLeapYear y then 29 else 28)
  else if m = 4 || m = 6 || m = 9 || m = 11 then 30
  else 31

/-- Go `time.Parse("2006-01-02", s)`: a strict `YYYY-MM-DD` parse with range
checks on month and day; `none` models a parse error (the source then keeps
the zero `time.Time`). -/
def parseDate (s : String) : Option Date :=
  match s.toList with
  | [y1, y2, y3, y4, s1, mo1, mo2, s2, d1, d2] =>
    if y1.isDigit && y2.isDigit && y3.isDigit && y4.isDigit &&
       s1 == '-' && mo1.isDigit && mo2.isDigit && s2 == '-' &&
       d1.isDigit && d2.isDigit then
      let y := ((digitVal y1 * 10 + digitVal y2) * 10 + digitVal y3) * 10 + digitVal y4
      let mo := digitVal mo1 * 10 + digitVal mo2
      let d := digitVal d1 * 10 + digitVal d2
      if 1 ≤ mo && mo ≤ 12 && 1 ≤ d && d ≤ daysInMonth y mo then
        some ⟨y, mo, d⟩
      else none
    else none
  | _ => none

/-- Go abbreviated month name, used by the `"Jan 2, 2006"` format. -/
def monthAbbrev : Nat → String
  | 1 => "Jan" | 2 => "Feb" | 3 => "Mar" | 4 => "Apr"
  | 5 => "May" | 6 => "Jun" | 7 => "Jul" | 8 => "Aug"
  | 9 => "Sep" | 10 => "Oct" | 11 => "Nov" | 12 => "Dec"
  | _ => ""

/-- Go `dateObj.Format("Jan 2, 2006")`: abbreviated month, unpadded day,
4-digit year. -/
def formatJan22006 (d : Date) : String :=
  monthAbbrev d.month ++ " " ++ toString d.day ++ ", " ++ pad4 d.year

/-- The header line written before the slot lines, with its newline. -/
def renderedHeader (dateObj : Date) : String :=
  "For " ++ formatJan22006 dateObj ++ ":\n"

/-- One slot line of `formatSkateTimes`: parse the (already normalized) key
with `time.Parse("1504", ...)` (zero time on error), format it `"3:04 PM"`,
and append the count looked up in the cleaned map. -/
def slotLine (cleanedMap : SlotMap) (skateTime : String) : String :=
  format304PM ((parse1504 skateTime).getD (0, 0)) ++ " has " ++
    toString (mapLookup cleanedMap skateTime) ++ " spots\n"

/-- Go `formatSkateTimes(dateObj, keys, cleanedMap)`: header line, then one
line per key in the given (sorted) order. -/
def formatSkateTimes (dateObj : Date) (keys : List String) (cleanedMap : SlotMap) : String :=
  renderedHeader dateObj ++ String.join (keys.map (slotLine cleanedMap))

/-- Go `getFormattedTimes(date, dateObj, skateTimesMap)`: filter and pad, sort
the keys, render. -/
def getFormattedTimes (date : String) (dateObj : Date) (skateTimesMap : RawSlotMap) : String :=
  let cleaned := removeZeroValues (rawLookup skateTimesMap date)
  formatSkateTimes dateObj (sortedKeys cleaned) cleaned

/-- Result of the outbound `http.Get`: either a transport error (`err != nil`),
or a response with an HTTP status and a body.  The body is `some m` when
`json.Unmarshal` succeeds with map `m`, and `none` when it fails (the source
ignores the error, leaving the map empty). -/
inductive UpstreamResult where
  | failure
  | response (status : Nat) (body : Option RawSlotMap)

/-- What a request does, observably: a live HTTP response (with the status,
the body, and whether the outbound fetch was performed), or process
termination by `log.Fatal` (recording any status header written first). -/
inductive Outcome where
  | respond (status : Nat) (body : String) (fetched : Bool)
  | fatal (statusWritten : Option Nat)
deriving DecidableEq

/-- Unmarshal step shared by all revisions: an unparseable body leaves the
freshly created map empty. -/
def decodeBody (b : Option RawSlotMap) : RawSlotMap := b.getD []

/-- Go `querySkateTimesAPI(date, w)`: on transport error it writes a 500
status header and then calls `log.Fatal` (process exit, modelled by `.error`);
the HTTP status of a received response is never inspected, and its body is
unmarshalled best-effort. -/
def querySkateTimesAPI (u : UpstreamResult) : Except (Option Nat) RawSlotMap :=
  match u with
  | .failure => .error (some 500)
  | .response _ body => .ok (decodeBody body)

/-- Go `Handler` (current revision, auth commented out): parse the
`startDate` header (zero time and a log line on failure, execution
continues), fetch, format, and always answer 200 with the text body. -/
def Handler (startDate : String) (u : UpstreamResult) : Outcome :=
  let dateObj := (parseDate startDate).getD zeroDate
  match querySkateTimesAPI u with
  | .error w => .fatal w
  | .ok m => .respond 200 (getFormattedTimes startDate dateObj m) true

/-- Go `makeRequestAndReturnFormattedTimes` of the legacy-auth revision: on
transport error, `log.Fatal` with no status header written; otherwise the
same filter/pad/sort/render pipeline as `getFormattedTimes` (the statements
are identical, inlined). -/
def makeRequestAndReturnFormattedTimes (date : String) (dateObj : Date)
    (u : UpstreamResult) : Except (Option Nat) String :=
  match u with
  | .failure => .error none
  | .response _ body => .ok (getFormattedTimes date dateObj (decodeBody body))

/-- Go `Handler` of the legacy-auth revisions: requests whose `token` header
is not the shared secret `"Andrew"` are answered 403 `Forbidden` before any
outbound call; otherwise the pipeline runs and the result is written with
status 200. -/
def HandlerWithAuth (token startDate : String) (u : UpstreamResult) : Outcome :=
  if token ≠ "Andrew" then .respond 403 "Forbidden" false
  else
    match makeRequestAndReturnFormattedTimes startDate
        ((parseDate startDate).getD zeroDate) u with
    | .error w => .fatal w
    | .ok s => .respond 200 s true

/-- The (time-code, count) pairs rendered for a date, in rendering order:
the sorted keys paired with the counts the render loop looks up. -/
def slotsFor (date : String) (m : RawSlotMap) : SlotMap :=
  let cleaned := removeZeroValues (rawLookup m date)
  (sortedKeys cleaned).map (fun k => (k, mapLookup cleaned k))

/-- Rendering of one slot pair, as `formatSkateTimes` does it. -/
def slotLineOf (p : String × Int) : String :=
  format304PM ((parse1504 p.1).getD (0, 0)) ++ " has " ++ toString p.2 ++ " spots\n"

example : parse1504 "1920" = some (19, 20) := by decide
example : parse1504 "730" = none := by decide
example : format304PM (19, 20) = "7:20 PM" := by decide
example : format304PM (0, 0) = "12:00 AM" := by decide
example : parseDate "2025-11-16" = some ⟨2025, 11, 16⟩ := by decide
example : parseDate "2025/11/16" = none := by decide
example : formatJan22006 ⟨2025, 11, 16⟩ = "Nov 16, 2025" := by decide
example : formatJan22006 zeroDate = "Jan 1, 0001" := by decide
example :
    getFormattedTimes "2025-11-16" ⟨2025, 11, 16⟩
      [("2025-11-16", [("1920", 36), ("0000", 0), ("2040", 29)])] =
    "For Nov 16, 2025:\n7:20 PM has 36 spots\n8:40 PM has 29 spots\n" := by decide

/-! Order lemmas for the string comparison `sort.Strings` sorts by. -/

theorem chLe_refl (a : List Char) : chLe a a = true := by
  induction a with
  | nil => rfl
  | cons c cs ih => simp [chLe, lt_irrefl, ih]

theorem chLe_total (a b : List Char) : chLe a b = true ∨ chLe b a = true := by
  induction a generalizing b with
  | nil => exact Or.inl rfl
  | cons c cs ih =>
    cases b with
    | nil => exact Or.inr rfl
    | cons d ds =>
      rcases lt_trichotomy c d with h | h | h
      · exact Or.inl (by simp [chLe, h])
      · subst h
        rcases ih ds with h2 | h2
        · exact Or.inl (by simp [chLe, lt_irrefl, h2])
        · exact Or.inr (by simp [chLe, lt_irrefl, h2])
      · exact Or.inr (by simp [chLe, h])

theorem chLe_trans {a b c : List Char} (h1 : chLe a b = true) (h2 : chLe b c = true) :
    chLe a c = true := by
  induction a generalizing b c with
  | nil => rfl
  | cons x xs ih =>
    cases b with
    | nil => simp [chLe] at h1
    | cons y ys =>
      cases c with
      | nil => simp [chLe] at h2
      | cons z zs =>
        by_cases hxy : x < y
        · by_cases hyz : y < z
          · simp [chLe, lt_trans hxy hyz]
          · by_cases hzy : z < y
            · simp [chLe, hyz, hzy] at h2
            · have hyzeq : y = z := le_antisymm (not_lt.mp hzy) (not_lt.mp hyz)
              subst hyzeq
              simp [chLe, hxy]
        · by_cases hyx : y < x
          · simp [chLe, hxy, hyx] at h1
          · have hxyeq : x = y := le_antisymm (not_lt.mp hyx) (not_lt.mp hxy)
            subst hxyeq
            simp only [chLe, if_neg hxy, if_neg (lt_irrefl x), ite_self] at h1
            by_cases hxz : x < z
            · simp [chLe, hxz]
            · by_cases hzx : z < x
              · simp [chLe, hxz, hzx] at h2
              · have hxzeq : x = z := le_antisymm (not_lt.mp hzx) (not_lt.mp hxz)
                subst hxzeq
                simp only [chLe, if_neg hxz, if_neg (lt_irrefl x), ite_self] at h2 ⊢
                exact ih h1 h2

theorem chLe_antisymm : ∀ {a b : List Char}, chLe a b = true → chLe b a = true → a = b := by
  intro a
  induction a with
  | nil =>
    intro b h1 h2
    cases b with
    | nil => rfl
    | cons d ds => simp [chLe] at h2
  | cons c cs ih =>
    intro b h1 h2
    cases b with
    | nil => simp [chLe] at h1
    | cons d ds =>
      rcases lt_trichotomy c d with h | h | h
      · simp [chLe, h, asymm h] at h2
      · subst h
        simp only [chLe, if_neg (lt_irrefl c), ite_self] at h1 h2
        rw [ih h1 h2]
      · simp [chLe, h, asymm h] at h1

theorem strLe_trans {a b c : String} (h1 : SLe a b) (h2 : SLe b c) : SLe a c :=
  chLe_trans h1 h2

theorem strLe_total (a b : String) : SLe a b ∨ SLe b a := chLe_total _ _

theorem strLe_antisymm {a b : String} (h1 : SLe a b) (h2 : SLe b a) : a = b :=
  String.toList_inj.mp (chLe_antisymm h1 h2)

/-! Correctness of the embedded `sort.Strings`. -/

theorem perm_orderedInsertStr (k : String) (l : List String) :
    (orderedInsertStr k l).Perm (k :: l) := by
  induction l with
  | nil => exact List.Perm.refl _
  | cons b t ih =>
    by_cases h : strLe k b = true
    · simp only [orderedInsertStr, if_pos h]
      exact List.Perm.refl _
    · simp only [orderedInsertStr, if_neg h]
      exact (ih.cons b).trans (List.Perm.swap k b t)

theorem perm_sortStrings (l : List String) : (sortStrings l).Perm l := by
  induction l with
  | nil => exact List.Perm.refl _
  | cons a t ih =>
    exact (perm_orderedInsertStr a (sortStrings t)).trans (ih.cons a)

theorem pairwise_orderedInsertStr {k : String} {l : List String}
    (hl : l.Pairwise SLe) : (orderedInsertStr k l).Pairwise SLe := by
  induction l with
  | nil => simp [orderedInsertStr]
  | cons b t ih =>
    rcases List.pairwise_cons.mp hl with ⟨hb, ht⟩
    by_cases h : strLe k b = true
    · simp only [orderedInsertStr, if_pos h]
      refine List.pairwise_cons.mpr ⟨?_, hl⟩
      intro x hx
      rcases List.mem_cons.mp hx with rfl | hx
      · exact h
      · exact strLe_trans h (hb x hx)
    · simp only [orderedInsertStr, if_neg h]
      refine List.pairwise_cons.mpr ⟨?_, ih ht⟩
      intro x hx
      have hx' : x = k ∨ x ∈ t := by
        simpa using (perm_orderedInsertStr k t).mem_iff.mp hx
      rcases hx' with rfl | hx'
      · rcases strLe_total x b with h1 | h1
        · exact absurd h1 h
        · exact h1
      · exact hb x hx'

theorem pairwise_sortStrings (l : List String) : (sortStrings l).Pairwise SLe := by
  induction l with
  | nil => exact List.Pairwise.nil
  | cons a t ih => exact pairwise_orderedInsertStr ih

theorem eq_of_perm_of_sortedStr :
    ∀ {l1 l2 : List String}, l1.Perm l2 → l1.Pairwise SLe → l2.Pairwise SLe → l1 = l2 := by
  intro l1
  induction l1 with
  | nil =>
    intro l2 hp _ _
    exact hp.nil_eq
  | cons a t1 ih =>
    intro l2 hp h1 h2
    cases l2 with
    | nil => exact absurd hp.eq_nil (List.cons_ne_nil a t1)
    | cons b t2 =>
      have ha2 : a ∈ b :: t2 := hp.mem_iff.mp (List.mem_cons_self a t1)
      have hb1 : b ∈ a :: t1 := hp.symm.mem_iff.mp (List.mem_cons_self b t2)
      have hab : a = b := by
        rcases List.mem_cons.mp ha2 with h | h
        · exact h
        · rcases List.mem_cons.mp hb1 with h' | h'
          · exact h'.symm
          · exact strLe_antisymm ((List.pairwise_cons.mp h1).1 b h')
              ((List.pairwise_cons.mp h2).1 a h)
      subst hab
      rw [ih hp.cons_inv (List.pairwise_cons.mp h1).2 (List.pairwise_cons.mp h2).2]

theorem pairwise_slt_of_nodup {l : List String} (hs : l.Pairwise SLe) (hn : l.Nodup) :
    l.Pairwise SLt :=
  hs.and hn

/-! Lemmas about the Go-map model. -/

theorem any_key_eq {m : SlotMap} {k : String} :
    m.any (fun p => p.1 == k) = true ↔ k ∈ m.map Prod.fst := by
  simp only [List.any_eq_true, beq_iff_eq, List.mem_map]

theorem mapAssign_of_not_mem {m : SlotMap} {k : String} (h : k ∉ m.map Prod.fst) (v : Int) :
    mapAssign m k v = m ++ [(k, v)] := by
  unfold mapAssign
  rw [if_neg (fun hc => h (any_key_eq.mp hc))]

theorem mapAssign_keys_of_mem {m : SlotMap} {k : String} (h : k ∈ m.map Prod.fst) (v : Int) :
    (mapAssign m k v).map Prod.fst = m.map Prod.fst := by
  unfold mapAssign
  rw [if_pos (any_key_eq.mpr h), List.map_map]
  apply List.map_congr_left
  intro p _
  by_cases hpk : p.1 = k
  · simp [hpk]
  · simp [hpk]

theorem mapAssign_forall {P : String × Int → Prop} {m : SlotMap} {k : String} {v : Int}
    (hm : ∀ p ∈ m, P p) (hkv : P (k, v)) : ∀ p ∈ mapAssign m k v, P p := by
  unfold mapAssign
  by_cases h : m.any (fun p => p.1 == k) = true
  · rw [if_pos h]
    intro p hp
    rcases List.mem_map.mp hp with ⟨q, hq, rfl⟩
    by_cases hqk : q.1 = k
    · simpa [hqk] using hkv
    · simpa [hqk] using hm q hq
  · rw [if_neg h]
    intro p hp
    rcases List.mem_append.mp hp with hp | hp
    · exact hm p hp
    · rw [List.mem_singleton.mp hp]; exact hkv

theorem mapAssign_keys_sub {m : SlotMap} {k : String} {v : Int} :
    ∀ x ∈ (mapAssign m k v).map Prod.fst, x ∈ m.map Prod.fst ∨ x = k := by
  by_cases hk : k ∈ m.map Prod.fst
  · rw [mapAssign_keys_of_mem hk]
    exact fun x hx => Or.inl hx
  · rw [mapAssign_of_not_mem hk]
    intro x hx
    rw [List.map_append] at hx
    rcases List.mem_append.mp hx with h | h
    · exact Or.inl h
    · exact Or.inr (by simpa using h)

theorem mapAssign_nodup_keys {m : SlotMap} {k : String} {v : Int}
    (h : (m.map Prod.fst).Nodup) : ((mapAssign m k v).map Prod.fst).Nodup := by
  by_cases hk : k ∈ m.map Prod.fst
  · rw [mapAssign_keys_of_mem hk]; exact h
  · rw [mapAssign_of_not_mem hk, List.map_append]
    simp [List.nodup_append, h, hk]

/-- The fold step of `removeZeroValues`. -/
theorem removeZeroValues_eq_foldl (l : SlotMap) :
    removeZeroValues l =
      l.foldl (fun acc p => if 0 < p.2 then mapAssign acc (normalizeKey p.1) p.2 else acc) [] :=
  rfl

theorem foldl_clean_forall {P : String × Int → Prop}
    (hP : ∀ k v, 0 < v → P (normalizeKey k, v)) :
    ∀ (l acc : SlotMap), (∀ p ∈ acc, P p) →
      ∀ p ∈ l.foldl (fun acc p => if 0 < p.2 then mapAssign acc (normalizeKey p.1) p.2 else acc) acc,
        P p := by
  intro l
  induction l with
  | nil => intro acc hacc; simpa using hacc
  | cons q t ih =>
    intro acc hacc
    simp only [List.foldl_cons]
    by_cases hq : 0 < q.2
    · rw [if_pos hq]
      exact ih _ (mapAssign_forall hacc (hP q.1 q.2 hq))
    · rw [if_neg hq]
      exact ih _ hacc

theorem removeZeroValues_pos {l : SlotMap} : ∀ p ∈ removeZeroValues l, 0 < p.2 := by
  rw [removeZeroValues_eq_foldl]
  exact foldl_clean_forall (fun _ _ hv => hv) l [] (by simp)

theorem foldl_clean_nodup_keys :
    ∀ (l acc : SlotMap), (acc.map Prod.fst).Nodup →
      ((l.foldl (fun acc p => if 0 < p.2 then mapAssign acc (normalizeKey p.1) p.2 else acc) acc).map
        Prod.fst).Nodup := by
  intro l
  induction l with
  | nil => intro acc hacc; simpa using hacc
  | cons q t ih =>
    intro acc hacc
    simp only [List.foldl_cons]
    by_cases hq : 0 < q.2
    · rw [if_pos hq]
      exact ih _ (mapAssign_nodup_keys hacc)
    · rw [if_neg hq]
      exact ih _ hacc

theorem removeZeroValues_nodup_keys (l : SlotMap) :
    ((removeZeroValues l).map Prod.fst).Nodup := by
  rw [removeZeroValues_eq_foldl]
  exact foldl_clean_nodup_keys l [] (by simp)

theorem foldl_clean_keys_sub :
    ∀ (l acc : SlotMap),
      ∀ k ∈ ((l.foldl (fun acc p => if 0 < p.2 then mapAssign acc (normalizeKey p.1) p.2 else acc)
          acc).map Prod.fst),
        k ∈ acc.map Prod.fst ∨ ∃ p ∈ l, 0 < p.2 ∧ k = normalizeKey p.1 := by
  intro l
  induction l with
  | nil => intro acc k hk; exact Or.inl (by simpa using hk)
  | cons q t ih =>
    intro acc k hk
    simp only [List.foldl_cons] at hk
    by_cases hq : 0 < q.2
    · rw [if_pos hq] at hk
      rcases ih _ k hk with h | ⟨p, hp, hv, he⟩
      · rcases mapAssign_keys_sub k h with h' | h'
        · exact Or.inl h'
        · exact Or.inr ⟨q, List.mem_cons_self q t, hq, h'⟩
      · exact Or.inr ⟨p, List.mem_cons_of_mem q hp, hv, he⟩
    · rw [if_neg hq] at hk
      rcases ih _ k hk with h | ⟨p, hp, hv, he⟩
      · exact Or.inl h
      · exact Or.inr ⟨p, List.mem_cons_of_mem q hp, hv, he⟩

theorem keys_removeZeroValues_sub {l : SlotMap} :
    ∀ k ∈ ((removeZeroValues l).map Prod.fst),
      ∃ p ∈ l, 0 < p.2 ∧ k = normalizeKey p.1 := by
  intro k hk
  rw [removeZeroValues_eq_foldl] at hk
  rcases foldl_clean_keys_sub l [] k hk with h | h
  · simp at h
  · exact h

theorem find?_key_eq_some_of_mem :
    ∀ {m : SlotMap}, (m.map Prod.fst).Nodup → ∀ {p : String × Int}, p ∈ m →
      m.find? (fun q => q.1 == p.1) = some p := by
  intro m
  induction m with
  | nil => intro _ p hp; cases hp
  | cons q t ih =>
    intro hn p hp
    rcases List.mem_cons.mp hp with rfl | hpt
    · simp [List.find?]
    · have hq : (q.1 == p.1) = false := by
        simp only [beq_eq_false_iff_ne, ne_eq]
        intro he
        have hmem : p.1 ∈ t.map Prod.fst := List.mem_map_of_mem Prod.fst hpt
        rw [List.map_cons] at hn
        exact (List.nodup_cons.mp hn).1 (he ▸ hmem)
      have hrec := ih (by rw [List.map_cons] at hn; exact (List.nodup_cons.mp hn).2) hpt
      simp [List.find?, hq, hrec]

theorem find?_key_eq_none {m : SlotMap} {k : String} (h : k ∉ m.map Prod.fst) :
    m.find? (fun q => q.1 == k) = none := by
  rw [List.find?_eq_none]
  intro p hp hbeq
  exact h (List.mem_map.mpr ⟨p, hp, beq_iff_eq.mp hbeq⟩)

theorem mapLookup_of_mem_nodup {m : SlotMap} (hn : (m.map Prod.fst).Nodup)
    {k : String} {v : Int} (h : (k, v) ∈ m) : mapLookup m k = v := by
  unfold mapLookup
  rw [find?_key_eq_some_of_mem hn h]

theorem mapLookup_fst {m : SlotMap} (hn : (m.map Prod.fst).Nodup)
    {p : String × Int} (hp : p ∈ m) : mapLookup m p.1 = p.2 :=
  mapLookup_of_mem_nodup hn (by rw [Prod.mk.eta]; exact hp)

theorem mapLookup_perm {m1 m2 : SlotMap} (hperm : m1.Perm m2)
    (hn : (m1.map Prod.fst).Nodup) (k : String) : mapLookup m1 k = mapLookup m2 k := by
  unfold mapLookup
  by_cases hk : k ∈ m1.map Prod.fst
  · rcases List.mem_map.mp hk with ⟨p, hp, rfl⟩
    rw [find?_key_eq_some_of_mem hn hp,
      find?_key_eq_some_of_mem (((hperm.map Prod.fst).nodup_iff).mp hn) (hperm.mem_iff.mp hp)]
  · rw [find?_key_eq_none hk, find?_key_eq_none (fun hc => hk ((hperm.map Prod.fst).mem_iff.mpr hc))]

/-- When no two surviving entries share a normalized key, every `mapAssign` of
the filter loop appends a fresh entry, so the cleaned map is exactly the
positive entries with normalized keys, in input order. -/
theorem foldl_clean_eq_append :
    ∀ (l acc : SlotMap),
      (∀ p ∈ l, 0 < p.2 → normalizeKey p.1 ∉ acc.map Prod.fst) →
      ((l.filter (fun p => decide (0 < p.2))).map (fun p => normalizeKey p.1)).Nodup →
      l.foldl (fun acc p => if 0 < p.2 then mapAssign acc (normalizeKey p.1) p.2 else acc) acc =
        acc ++ (l.filter (fun p => decide (0 < p.2))).map (fun p => (normalizeKey p.1, p.2)) := by
  intro l
  induction l with
  | nil => intro acc _ _; simp
  | cons q t ih =>
    intro acc hfresh hnodup
    simp only [List.foldl_cons]
    by_cases hq : 0 < q.2
    · rw [if_pos hq, mapAssign_of_not_mem (hfresh q (List.mem_cons_self q t) hq)]
      have hfilter : (q :: t).filter (fun p => decide (0 < p.2)) =
          q :: t.filter (fun p => decide (0 < p.2)) :=
        List.filter_cons_of_pos (by simpa using hq)
      rw [hfilter] at hnodup
      rw [List.map_cons, List.nodup_cons] at hnodup
      rw [ih (acc ++ [(normalizeKey q.1, q.2)])]
      · rw [hfilter, List.map_cons, List.append_assoc, List.singleton_append]
      · intro p hp hpv
        rw [List.map_append]
        intro hmem
        rcases List.mem_append.mp hmem with h | h
        · exact hfresh p (List.mem_cons_of_mem q hp) hpv h
        · have : normalizeKey p.1 = normalizeKey q.1 := by simpa using h
          exact hnodup.1 (this ▸ List.mem_map.mpr
            ⟨p, List.mem_filter.mpr ⟨hp, by simpa using hpv⟩, rfl⟩)
      · exact hnodup.2
    · rw [if_neg hq]
      have hfilter : (q :: t).filter (fun p => decide (0 < p.2)) =
          t.filter (fun p => decide (0 < p.2)) :=
        List.filter_cons_of_neg (by simpa using hq)
      rw [hfilter] at hnodup
      rw [ih acc (fun p hp hpv => hfresh p (List.mem_cons_of_mem q hp) hpv) hnodup, hfilter]

theorem removeZeroValues_eq_of_nodup {l : SlotMap}
    (h : ((l.filter (fun p => decide (0 < p.2))).map (fun p => normalizeKey p.1)).Nodup) :
    removeZeroValues l =
      (l.filter (fun p => decide (0 < p.2))).map (fun p => (normalizeKey p.1, p.2)) := by
  rw [removeZeroValues_eq_foldl]
  rw [foldl_clean_eq_append l [] (by simp) h]
  simp

theorem filter_eq_singleton_of_nodup {l : List String} {a : String}
    (hn : l.Nodup) (ha : a ∈ l) : l.filter (fun x => x == a) = [a] := by
  induction l with
  | nil => cases ha
  | cons b t ih =>
    rcases List.mem_cons.mp ha with rfl | hat
    · have hb : a ∉ t := (List.nodup_cons.mp hn).1
      have ht : t.filter (fun x => x == a) = [] := by
        rw [List.filter_eq_nil_iff]
        intro x hx
        simp only [beq_iff_eq]
        intro he
        exact hb (he ▸ hx)
      simp [List.filter_cons, ht]
    · have hba : (b == a) = false := by
        simp only [beq_eq_false_iff_ne, ne_eq]
        intro he
        exact (List.nodup_cons.mp hn).1 (he ▸ hat)
      have ht := ih (List.nodup_cons.mp hn).2 hat
      simp [List.filter_cons, hba, ht]

/-! Pipeline-level lemmas. -/

theorem getFormattedTimes_eq (d : String) (o : Date) (m : RawSlotMap) :
    getFormattedTimes d o m = renderedHeader o ++ String.join ((slotsFor d m).map slotLineOf) := by
  unfold getFormattedTimes formatSkateTimes slotsFor
  rw [List.map_map]
  rfl

theorem slotsFor_keys (d : String) (m : RawSlotMap) :
    (slotsFor d m).map Prod.fst = sortedKeys (removeZeroValues (rawLookup m d)) := by
  unfold slotsFor
  rw [List.map_map]
  calc (sortedKeys (removeZeroValues (rawLookup m d))).map
        (Prod.fst ∘ fun k => (k, mapLookup (removeZeroValues (rawLookup m d)) k))
      = (sortedKeys (removeZeroValues (rawLookup m d))).map id :=
        List.map_congr_left (fun k _ => rfl)
    _ = sortedKeys (removeZeroValues (rawLookup m d)) := List.map_id _

theorem foldl_clean_skip :
    ∀ (l acc : SlotMap), (∀ p ∈ l, p.2 ≤ 0) →
      l.foldl (fun acc p => if 0 < p.2 then mapAssign acc (normalizeKey p.1) p.2 else acc) acc =
        acc := by
  intro l
  induction l with
  | nil => intro acc _; rfl
  | cons q t ih =>
    intro acc h
    simp only [List.foldl_cons]
    rw [if_neg (not_lt.mpr (h q (List.mem_cons_self q t)))]
    exact ih acc (fun p hp => h p (List.mem_cons_of_mem q hp))

theorem removeZeroValues_eq_nil_of_nonpos {l : SlotMap} (h : ∀ p ∈ l, p.2 ≤ 0) :
    removeZeroValues l = [] := by
  rw [removeZeroValues_eq_foldl]
  exact foldl_clean_skip l [] h

theorem getFormattedTimes_header_only {d : String} {o : Date} {m : RawSlotMap}
    (h : ∀ p ∈ rawLookup m d, p.2 ≤ 0) :
    getFormattedTimes d o m = renderedHeader o := by
  unfold getFormattedTimes formatSkateTimes
  rw [removeZeroValues_eq_nil_of_nonpos h]
  show renderedHeader o ++ String.join (List.map (slotLine []) (sortedKeys [])) = renderedHeader o
  rw [show sortedKeys ([] : SlotMap) = [] from rfl, List.map_nil]
  rw [show String.join [] = "" from rfl, String.append_empty]

/-! Claims. -/

/-- Claim C1: for every availability map for the requested date, the slot
lines of the rendered text appear in strictly ascending lexicographic order
of the normalized time-codes, regardless of the order in which the map's
entries are produced: the output is the header followed by the lines of
`slotsFor`, whose time-codes are pairwise strictly ascending for every
input map. -/
theorem C1_sorted_output (d : String) (o : Date) (m : RawSlotMap) :
    List.Pairwise SLt ((slotsFor d m).map Prod.fst) ∧
    getFormattedTimes d o m = renderedHeader o ++ String.join ((slotsFor d m).map slotLineOf) := by
  constructor
  · rw [slotsFor_keys]
    unfold sortedKeys
    apply pairwise_slt_of_nodup (pairwise_sortStrings _)
    exact ((perm_sortStrings _).nodup_iff).mpr (removeZeroValues_nodup_keys _)
  · exact getFormattedTimes_eq d o m

/-- Claim C3 counterexample: on the spec's own scenario input the code's
text output is not the claimed string — the header uses the abbreviated
month name (`Nov`, Go format `Jan 2, 2006`) and the slot lines have a space
before the AM/PM marker (Go format `3:04 PM`). -/
theorem C3_counterexample :
    Handler "2025-11-16" (.response 200 (some [("2025-11-16",
        [("1920", 36), ("0000", 0), ("2040", 29)])])) =
      .respond 200 "For Nov 16, 2025:\n7:20 PM has 36 spots\n8:40 PM has 29 spots\n" true ∧
    "For Nov 16, 2025:\n7:20 PM has 36 spots\n8:40 PM has 29 spots\n" ≠
      "For November 16, 2025:\n7:20PM has 36 spots\n8:40PM has 29 spots\n" :=
  ⟨by decide, by decide⟩

/-- Claim C3 (amended): for the input map with `1920 = 36`, `0000 = 0`,
`2040 = 29` and date 2025-11-16, the text output is exactly the header
`For Nov 16, 2025:` followed by `7:20 PM has 36 spots` and
`8:40 PM has 29 spots`, in that order, served with status 200. -/
theorem C3_exact_output :
    Handler "2025-11-16" (.response 200 (some [("2025-11-16",
        [("1920", 36), ("0000", 0), ("2040", 29)])])) =
      .respond 200 "For Nov 16, 2025:\n7:20 PM has 36 spots\n8:40 PM has 29 spots\n" true := by
  decide

/-- Claim C5: contrary to the claim, when the outbound fetch returns a
transport error the handler writes a 500 status header and then `log.Fatal`
terminates the serving process with no detail body; and a response with a
non-success HTTP status is not detected as a failure at all — its body is
parsed best-effort and answered with status 200. -/
theorem C5_fatal_behavior :
    Handler "2025-11-16" .failure = .fatal (some 500) ∧
    Handler "2025-11-16" (.response 503 none) =
      .respond 200 (renderedHeader ⟨2025, 11, 16⟩) true :=
  ⟨rfl, by decide⟩

/-- Claim C6: contrary to the claim, a `startDate` that fails `YYYY-MM-DD`
parsing is only logged as a warning; the request proceeds with the zero
date and is answered with status 200 and the header `For Jan 1, 0001:`,
not with status 400 and a JSON detail body. -/
theorem C6_no_validation :
    parseDate "2025/11/16" = none ∧
    Handler "2025/11/16" (.response 200 none) =
      .respond 200 "For Jan 1, 0001:\n" true :=
  ⟨by decide, by decide⟩

/-- Claim C7: in the legacy-auth variants, every request whose `token`
header differs from the shared secret `Andrew` is answered 403 with body
`Forbidden`, with no outbound fetch performed and no availability data
written. -/
theorem C7_auth_forbidden (token startDate : String) (u : UpstreamResult)
    (h : token ≠ "Andrew") :
    HandlerWithAuth token startDate u = .respond 403 "Forbidden" false := by
  unfold HandlerWithAuth
  rw [if_pos h]

/-- Claim C7 witness: the rejection at the concrete token `Bob`. -/
theorem C7_witness :
    "Bob" ≠ "Andrew" ∧
    HandlerWithAuth "Bob" "2025-11-16" (.response 200 none) =
      .respond 403 "Forbidden" false :=
  ⟨by decide, C7_auth_forbidden "Bob" "2025-11-16" (.response 200 none) (by decide)⟩

/-- Claim C2 counterexample: the keys `700` and `0700` both normalize to
`0700`, so the later assignment overwrites the earlier one and the pair
`(700, 5)`, although its count is positive, is not kept: no rendered slot
carries count 5. -/
theorem C2_counterexample :
    slotsFor "2025-11-16" [("2025-11-16", [("700", 5), ("0700", 3)])] = [("0700", 3)] ∧
    ∀ q ∈ slotsFor "2025-11-16" [("2025-11-16", [("700", 5), ("0700", 3)])], q.2 ≠ 5 :=
  ⟨by decide, by decide⟩

/-- Claim C2 (amended): no rendered slot has a count below 1, and — provided
no two surviving entries share a normalized time-code — every pair with a
positive count is kept, appearing as the slot with its normalized code and
unchanged count. -/
theorem C2_filter_amended (d : String) (m : RawSlotMap) :
    (∀ q ∈ slotsFor d m, 0 < q.2) ∧
    ((((rawLookup m d).filter (fun p => decide (0 < p.2))).map
        (fun p => normalizeKey p.1)).Nodup →
      ∀ p ∈ rawLookup m d, 0 < p.2 → (normalizeKey p.1, p.2) ∈ slotsFor d m) := by
  constructor
  · intro q hq
    unfold slotsFor at hq
    rcases List.mem_map.mp hq with ⟨k, hk, rfl⟩
    have hk' : k ∈ (removeZeroValues (rawLookup m d)).map Prod.fst := by
      unfold sortedKeys at hk
      exact (perm_sortStrings _).mem_iff.mp hk
    rcases List.mem_map.mp hk' with ⟨p, hp, rfl⟩
    have hlook := mapLookup_fst (removeZeroValues_nodup_keys (rawLookup m d)) hp
    simpa [hlook] using removeZeroValues_pos p hp
  · intro hnodup p hp hpos
    have hmem : (normalizeKey p.1, p.2) ∈ removeZeroValues (rawLookup m d) := by
      rw [removeZeroValues_eq_of_nodup hnodup]
      exact List.mem_map.mpr ⟨p, List.mem_filter.mpr ⟨hp, by simpa using hpos⟩, rfl⟩
    have hkey : normalizeKey p.1 ∈ (removeZeroValues (rawLookup m d)).map Prod.fst :=
      List.mem_map_of_mem Prod.fst hmem
    have hsorted : normalizeKey p.1 ∈ sortedKeys (removeZeroValues (rawLookup m d)) := by
      unfold sortedKeys
      exact (perm_sortStrings _).mem_iff.mpr hkey
    unfold slotsFor
    refine List.mem_map.mpr ⟨normalizeKey p.1, hsorted, ?_⟩
    have hlook : mapLookup (removeZeroValues (rawLookup m d)) (normalizeKey p.1) = p.2 :=
      mapLookup_fst (removeZeroValues_nodup_keys (rawLookup m d)) hmem
    rw [hlook]

/-- Claim C2 witness: the amended statement evaluated on a collision-free
concrete map. -/
theorem C2_witness :
    (((rawLookup [("2025-11-16", [("1920", 36), ("0000", 0)])] "2025-11-16").filter
        (fun p => decide (0 < p.2))).map (fun p => normalizeKey p.1)).Nodup ∧
    (∀ q ∈ slotsFor "2025-11-16" [("2025-11-16", [("1920", 36), ("0000", 0)])], 0 < q.2) ∧
    (normalizeKey "1920", (36 : Int)) ∈
      slotsFor "2025-11-16" [("2025-11-16", [("1920", 36), ("0000", 0)])] :=
  ⟨by decide,
   (C2_filter_amended "2025-11-16" [("2025-11-16", [("1920", 36), ("0000", 0)])]).1,
   (C2_filter_amended "2025-11-16" [("2025-11-16", [("1920", 36), ("0000", 0)])]).2
     (by decide) ("1920", 36) (by decide) (by decide)⟩

/-- Claim C4 counterexample: a surviving 2-character time-code is not padded
at all — only 3-character codes are — so a code shorter than 4 characters
reaches sorting and display. -/
theorem C4_counterexample :
    normalizeKey "45" = "45" ∧
    (slotsFor "2025-11-16" [("2025-11-16", [("45", 3)])]).map Prod.fst = ["45"] ∧
    ¬("45".length = 4) :=
  ⟨by decide, by decide, by decide⟩

/-- Claim C4 (amended): the filter loop left-pads exactly the 3-character
surviving time-codes with one `0`; codes of any other length pass through
unchanged.  Hence, when every surviving input code has length 3 or 4, every
time-code used for sorting and display is exactly 4 characters long. -/
theorem C4_normalized_length (d : String) (m : RawSlotMap)
    (h : ∀ p ∈ rawLookup m d, 0 < p.2 → p.1.length = 3 ∨ p.1.length = 4) :
    ∀ k ∈ (slotsFor d m).map Prod.fst, k.length = 4 := by
  intro k hk
  rw [slotsFor_keys] at hk
  have hkeys : k ∈ (removeZeroValues (rawLookup m d)).map Prod.fst := by
    unfold sortedKeys at hk
    exact (perm_sortStrings _).mem_iff.mp hk
  rcases keys_removeZeroValues_sub k hkeys with ⟨p, hp, hpos, rfl⟩
  unfold normalizeKey
  rcases h p hp hpos with h3 | h4
  · rw [if_pos h3, String.length_append, h3]
    decide
  · rw [if_neg (by omega), h4]


/-- Claim C4 witness: the amended statement on a map whose surviving codes
have lengths 3 and 4. -/
theorem C4_witness :
    (∀ p ∈ rawLookup [("2025-11-16", [("730", 10), ("1920", 4)])] "2025-11-16",
      0 < p.2 → p.1.length = 3 ∨ p.1.length = 4) ∧
    ∀ k ∈ (slotsFor "2025-11-16" [("2025-11-16", [("730", 10), ("1920", 4)])]).map Prod.fst,
      k.length = 4 :=
  ⟨by decide,
   C4_normalized_length "2025-11-16" [("2025-11-16", [("730", 10), ("1920", 4)])] (by decide)⟩

/-- Claim C8 counterexample: two maps with equal key/value contents (one a
permutation of the other) render differently, because the keys `700` and
`0700` normalize to the same code and the surviving count depends on the
order in which the entries are assigned. -/
theorem C8_counterexample :
    ([("700", (5 : Int)), ("0700", 3)]).Perm [("0700", (3 : Int)), ("700", 5)] ∧
    getFormattedTimes "2025-11-16" ⟨2025, 11, 16⟩
        [("2025-11-16", [("700", 5), ("0700", 3)])] ≠
      getFormattedTimes "2025-11-16" ⟨2025, 11, 16⟩
        [("2025-11-16", [("0700", 3), ("700", 5)])] :=
  ⟨List.Perm.swap ("0700", 3) ("700", 5) [], by decide⟩

/-- Claim C8 (amended): the rendered text depends only on the availability
map's contents and the date — any two entry orders render identically —
provided no two surviving entries share a normalized time-code (with a
collision, which colliding count survives depends on iteration order). -/
theorem C8_order_insensitive (d : String) (o : Date) (m1 m2 : RawSlotMap)
    (hperm : (rawLookup m1 d).Perm (rawLookup m2 d))
    (hnodup : (((rawLookup m1 d).filter (fun p => decide (0 < p.2))).map
      (fun p => normalizeKey p.1)).Nodup) :
    getFormattedTimes d o m1 = getFormattedTimes d o m2 := by
  have hnodup2 : (((rawLookup m2 d).filter (fun p => decide (0 < p.2))).map
      (fun p => normalizeKey p.1)).Nodup :=
    (((hperm.filter _).map _).nodup_iff).mp hnodup
  have hcperm : (removeZeroValues (rawLookup m1 d)).Perm (removeZeroValues (rawLookup m2 d)) := by
    rw [removeZeroValues_eq_of_nodup hnodup, removeZeroValues_eq_of_nodup hnodup2]
    exact (hperm.filter _).map _
  have hkeys : sortedKeys (removeZeroValues (rawLookup m1 d)) =
      sortedKeys (removeZeroValues (rawLookup m2 d)) := by
    unfold sortedKeys
    exact eq_of_perm_of_sortedStr
      ((perm_sortStrings _).trans ((hcperm.map Prod.fst).trans (perm_sortStrings _).symm))
      (pairwise_sortStrings _) (pairwise_sortStrings _)
  unfold getFormattedTimes formatSkateTimes
  show renderedHeader o ++ String.join ((sortedKeys (removeZeroValues (rawLookup m1 d))).map
      (slotLine (removeZeroValues (rawLookup m1 d)))) =
    renderedHeader o ++ String.join ((sortedKeys (removeZeroValues (rawLookup m2 d))).map
      (slotLine (removeZeroValues (rawLookup m2 d))))
  rw [hkeys]
  congr 1
  congr 1
  apply List.map_congr_left
  intro k _
  unfold slotLine
  rw [mapLookup_perm hcperm (removeZeroValues_nodup_keys _) k]

/-- Claim C8 witness: the amended statement on two entry orders of a
collision-free map. -/
theorem C8_witness :
    (rawLookup [("2025-11-16", [("1920", 36), ("700", 10)])] "2025-11-16").Perm
      (rawLookup [("2025-11-16", [("700", 10), ("1920", 36)])] "2025-11-16") ∧
    (((rawLookup [("2025-11-16", [("1920", 36), ("700", 10)])] "2025-11-16").filter
        (fun p => decide (0 < p.2))).map (fun p => normalizeKey p.1)).Nodup ∧
    getFormattedTimes "2025-11-16" ⟨2025, 11, 16⟩
        [("2025-11-16", [("1920", 36), ("700", 10)])] =
      getFormattedTimes "2025-11-16" ⟨2025, 11, 16⟩
        [("2025-11-16", [("700", 10), ("1920", 36)])] :=
  ⟨List.Perm.swap ("700", 10) ("1920", 36) [], by decide,
   C8_order_insensitive "2025-11-16" ⟨2025, 11, 16⟩
     [("2025-11-16", [("1920", 36), ("700", 10)])]
     [("2025-11-16", [("700", 10), ("1920", 36)])]
     (List.Perm.swap ("700", 10) ("1920", 36) []) (by decide)⟩

/-- Claim C9: for every request whose upstream response body fails JSON
parsing, or has no entry for the requested date, or only slots with
non-positive counts, the handler still answers 200 with exactly the header
line and no slot lines; and every response body begins with that header
line regardless of the availability contents. -/
theorem C9_header_only (sd : String) (st : Nat) (b : Option RawSlotMap)
    (h : b = none ∨ rawLookup (decodeBody b) sd = [] ∨
      ∀ p ∈ rawLookup (decodeBody b) sd, p.2 ≤ 0) :
    Handler sd (.response st b) =
      .respond 200 (renderedHeader ((parseDate sd).getD zeroDate)) true ∧
    ∀ (st2 : Nat) (b2 : Option RawSlotMap), ∃ rest,
      Handler sd (.response st2 b2) =
        .respond 200 (renderedHeader ((parseDate sd).getD zeroDate) ++ rest) true := by
  constructor
  · have hnp : ∀ p ∈ rawLookup (decodeBody b) sd, p.2 ≤ 0 := by
      rcases h with rfl | h | h
      · intro p hp
        simp [decodeBody, rawLookup] at hp
      · intro p hp
        rw [h] at hp
        cases hp
      · exact h
    show Outcome.respond 200 (getFormattedTimes sd ((parseDate sd).getD zeroDate)
      (decodeBody b)) true = _
    rw [getFormattedTimes_header_only hnp]
  · intro st2 b2
    exact ⟨String.join ((slotsFor sd (decodeBody b2)).map slotLineOf), by
      show Outcome.respond 200 (getFormattedTimes sd ((parseDate sd).getD zeroDate)
        (decodeBody b2)) true = _
      rw [getFormattedTimes_eq]⟩

/-- Claim C9 witness: the statement evaluated on an unparseable body. -/
theorem C9_witness :
    ((none : Option RawSlotMap) = none ∨
      rawLookup (decodeBody none) "2025-11-16" = [] ∨
      ∀ p ∈ rawLookup (decodeBody none) "2025-11-16", p.2 ≤ 0) ∧
    (Handler "2025-11-16" (.response 200 none) =
      .respond 200 (renderedHeader ((parseDate "2025-11-16").getD zeroDate)) true ∧
    ∀ (st2 : Nat) (b2 : Option RawSlotMap), ∃ rest,
      Handler "2025-11-16" (.response st2 b2) =
        .respond 200 (renderedHeader ((parseDate "2025-11-16").getD zeroDate) ++ rest) true) :=
  ⟨Or.inl rfl, C9_header_only "2025-11-16" 200 none (Or.inl rfl)⟩

/-- Claim C10 counterexample: the positive pair `(930, 7)` has no rendered
slot line carrying its count at all, because `930` and `0930` collide after
normalization and the later assignment overwrites the earlier count. -/
theorem C10_counterexample :
    (("930", (7 : Int)) ∈
      rawLookup [("2025-11-16", [("930", 7), ("0930", 2)])] "2025-11-16") ∧
    slotsFor "2025-11-16" [("2025-11-16", [("930", 7), ("0930", 2)])] = [("0930", 2)] ∧
    ((slotsFor "2025-11-16" [("2025-11-16", [("930", 7), ("0930", 2)])]).filter
      (fun q => q.2 == (7 : Int))).length = 0 :=
  ⟨by decide, by decide, by decide⟩

/-- Claim C10 (amended): the pipeline never alters counts — provided no two
surviving entries share a normalized time-code, every input pair with a
positive count yields exactly one rendered slot for its normalized code,
and that slot carries the unchanged input count. -/
theorem C10_counts_preserved (d : String) (m : RawSlotMap)
    (hnodup : (((rawLookup m d).filter (fun p => decide (0 < p.2))).map
      (fun p => normalizeKey p.1)).Nodup) :
    ∀ p ∈ rawLookup m d, 0 < p.2 →
      (slotsFor d m).filter (fun q => q.1 == normalizeKey p.1) =
        [(normalizeKey p.1, p.2)] := by
  intro p hp hpos
  have hmem : (normalizeKey p.1, p.2) ∈ removeZeroValues (rawLookup m d) := by
    rw [removeZeroValues_eq_of_nodup hnodup]
    exact List.mem_map.mpr ⟨p, List.mem_filter.mpr ⟨hp, by simpa using hpos⟩, rfl⟩
  have hkeysnodup := removeZeroValues_nodup_keys (rawLookup m d)
  have hkey : normalizeKey p.1 ∈ (removeZeroValues (rawLookup m d)).map Prod.fst :=
    List.mem_map_of_mem Prod.fst hmem
  have hsortnodup : (sortedKeys (removeZeroValues (rawLookup m d))).Nodup := by
    unfold sortedKeys
    exact ((perm_sortStrings _).nodup_iff).mpr hkeysnodup
  have hsortmem : normalizeKey p.1 ∈ sortedKeys (removeZeroValues (rawLookup m d)) := by
    unfold sortedKeys
    exact (perm_sortStrings _).mem_iff.mpr hkey
  unfold slotsFor
  rw [List.filter_map]
  rw [show ((fun q => q.1 == normalizeKey p.1) ∘
      (fun k => (k, mapLookup (removeZeroValues (rawLookup m d)) k))) =
      (fun k => k == normalizeKey p.1) from rfl]
  rw [filter_eq_singleton_of_nodup hsortnodup hsortmem]
  have hlook : mapLookup (removeZeroValues (rawLookup m d)) (normalizeKey p.1) = p.2 :=
    mapLookup_fst hkeysnodup hmem
  rw [List.map_singleton, hlook]

/-- Claim C10 witness: the amended statement on a collision-free map, at the
positive pair with the 3-character code `730`. -/
theorem C10_witness :
    (((rawLookup [("2025-11-16", [("1920", 36), ("730", 5)])] "2025-11-16").filter
        (fun p => decide (0 < p.2))).map (fun p => normalizeKey p.1)).Nodup ∧
    (slotsFor "2025-11-16" [("2025-11-16", [("1920", 36), ("730", 5)])]).filter
        (fun q => q.1 == normalizeKey "730") =
      [(normalizeKey "730", 5)] :=
  ⟨by decide,
   C10_counts_preserved "2025-11-16" [("2025-11-16", [("1920", 36), ("730", 5)])]
     (by decide) ("730", 5) (by decide) (by decide)⟩

end BpSkate
